import Mathlib

set_option maxRecDepth 4000

/-!
Verification of the arbitrage-detection engine specification of the
solana-mev repository.  The repository ships the Python test harness
(mev-tests/test_mev.py, mev-tests/util.py, mev-tests/deploy_test_mev.py);
the engine itself is configured and observed through its event log, so the
engine-side definitions below are modelled from the specification document
and anchored on the concrete input/output values asserted by the test
harness.
-/

/-- Modelled from the spec: the math-level error taxonomy of the swap
engine (spec sections 4.1 and 7); the engine source is not part of the
repository. -/
inductive SwapError where
  | invalidReserves
  deriving DecidableEq, Repr

/-- Modelled from the spec (section 4.1): the fee is taken from the input
amount before the constant-product formula is applied,
`amount_in_after_fee = amount_in * (fee_den - fee_num) / fee_den` with
truncating integer division. -/
def afterFee (feeNum feeDen amountIn : Nat) : Nat :=
  amountIn * (feeDen - feeNum) / feeDen

/-- Modelled from the spec (section 4.1): the constant-product output
amount, `floor(reserve_out * amount_in_after_fee /
(reserve_in + amount_in_after_fee))`. -/
def swapOutVal (reserveIn reserveOut feeNum feeDen amountIn : Nat) : Nat :=
  reserveOut * afterFee feeNum feeDen amountIn /
    (reserveIn + afterFee feeNum feeDen amountIn)

/-- Modelled from the spec (section 4.1): `swap_out` fails with
`InvalidReserves` when either reserve is 0, otherwise it returns the
constant-product output amount. -/
def swap_out (reserveIn reserveOut feeNum feeDen amountIn : Nat) :
    Except SwapError Nat :=
  if reserveIn = 0 ∨ reserveOut = 0 then .error .invalidReserves
  else .ok (swapOutVal reserveIn reserveOut feeNum feeDen amountIn)

/-- Modelled from the spec (section 4.2): composing `swap_out` over the
hops of a cycle, each hop given as
`(reserve_in, reserve_out, fee_num, fee_den)`, collecting the per-hop
(input, output) pairs; any hop failure aborts the composition. -/
def composeSwapOut :
    List (Nat × Nat × Nat × Nat) → Nat → Except SwapError (List (Nat × Nat))
  | [], _ => .ok []
  | (rin, rout, fn, fd) :: rest, x =>
    match swap_out rin rout fn fd x with
    | .error e => .error e
    | .ok y =>
      match composeSwapOut rest y with
      | .error e => .error e
      | .ok tail => .ok ((x, y) :: tail)

/-- Modelled from the spec (section 4.2): the net profit read off a list of
per-hop (input, output) pairs, final output minus initial input. -/
def cycleProfit : List (Nat × Nat) → Int
  | [] => 0
  | pr :: rest => (((pr :: rest).getLastD pr).2 : Int) - (pr.1 : Int)

lemma afterFee_mono (feeNum feeDen : Nat) {x y : Nat} (h : x ≤ y) :
    afterFee feeNum feeDen x ≤ afterFee feeNum feeDen y :=
  Nat.div_le_div_right (Nat.mul_le_mul_right _ h)

lemma cpQuot_le (K r a : Nat) (hr : 0 < r) : K * a / (r + a) ≤ K := by
  calc K * a / (r + a) ≤ K * (r + a) / (r + a) :=
        Nat.div_le_div_right (Nat.mul_le_mul_left K (by omega))
  _ = K := Nat.mul_div_cancel _ (show 0 < r + a by omega)

lemma cpQuot_mono (K r a b : Nat) (hr : 0 < r) (hab : a ≤ b) :
    K * a / (r + a) ≤ K * b / (r + b) := by
  have hpos : 0 < r + b := by omega
  apply (Nat.le_div_iff_mul_le hpos).mpr
  have h1 : K * a / (r + a) * (r + a) ≤ K * a := Nat.div_mul_le_self _ _
  have hq : K * a / (r + a) ≤ K := cpQuot_le K r a hr
  calc K * a / (r + a) * (r + b)
      = K * a / (r + a) * (r + a) + K * a / (r + a) * (b - a) := by
        rw [← Nat.mul_add]; congr 1; omega
  _ ≤ K * a + K * (b - a) := Nat.add_le_add h1 (Nat.mul_le_mul_right _ hq)
  _ = K * (a + (b - a)) := by rw [Nat.mul_add]
  _ = K * b := by congr 1; omega

lemma swapOutVal_le (reserveIn reserveOut feeNum feeDen x : Nat)
    (hin : 0 < reserveIn) :
    swapOutVal reserveIn reserveOut feeNum feeDen x ≤ reserveOut :=
  cpQuot_le reserveOut reserveIn (afterFee feeNum feeDen x) hin

lemma swapOutVal_mono (reserveIn reserveOut feeNum feeDen : Nat) {x y : Nat}
    (hin : 0 < reserveIn) (hxy : x ≤ y) :
    swapOutVal reserveIn reserveOut feeNum feeDen x ≤
      swapOutVal reserveIn reserveOut feeNum feeDen y :=
  cpQuot_mono reserveOut reserveIn _ _ hin (afterFee_mono feeNum feeDen hxy)

/-- Modelled from the spec (section 3): swap direction, selecting which
reserve is the input side of a hop. -/
inductive Direction where
  | AtoB
  | BtoA
  deriving DecidableEq, Repr

/-- Modelled from the spec (section 3): a pool is identified by its reserve
accounts and fee rate.  The fee is split into a trade fee and an owner fee
over a common denominator: scenario B of the spec (and the assertions of
mev-tests/test_mev.py lines 293-303) force this split, because the two fee
components are truncated separately and no single truncated fee rate
reproduces both the second hop output 2605 and the third hop output 37084. -/
structure Pool where
  reserveA : Nat
  reserveB : Nat
  tradeFeeNum : Nat
  ownerFeeNum : Nat
  feeDen : Nat
  deriving DecidableEq, Repr

def Pool.reserveIn (p : Pool) : Direction → Nat
  | .AtoB => p.reserveA
  | .BtoA => p.reserveB

def Pool.reserveOut (p : Pool) : Direction → Nat
  | .AtoB => p.reserveB
  | .BtoA => p.reserveA

/-- Modelled from the spec: input amount net of fees, the trade fee and the
owner fee each truncated separately (the spl-token-swap scheme forced by
scenario B, see `Pool`). -/
def Pool.afterFees (p : Pool) (x : Nat) : Nat :=
  x - x * p.tradeFeeNum / p.feeDen - x * p.ownerFeeNum / p.feeDen

/-- Modelled from the spec (section 4.1): constant-product output of one
hop through a pool. -/
def Pool.swapVal (p : Pool) (d : Direction) (x : Nat) : Nat :=
  p.reserveOut d * p.afterFees x / (p.reserveIn d + p.afterFees x)

/-- Modelled from the spec (sections 4.1 and 7): a hop fails with
`InvalidReserves` when either reserve of the pool is 0. -/
def Pool.swapE (p : Pool) (d : Direction) (x : Nat) : Except SwapError Nat :=
  if p.reserveIn d = 0 ∨ p.reserveOut d = 0 then .error .invalidReserves
  else .ok (p.swapVal d x)

/-- Modelled from the spec (sections 3 and 6): a configured mev_path entry,
a named ordered sequence of (pool, direction) hops. -/
structure MevPath where
  name : String
  hops : List (Pool × Direction)
  deriving DecidableEq, Repr

/-- Modelled from the spec (section 4.2): per-hop (input, output) amounts
along a cycle; any hop failure aborts the evaluation. -/
def cycleAmounts :
    List (Pool × Direction) → Nat → Except SwapError (List (Nat × Nat))
  | [], _ => .ok []
  | (pl, d) :: rest, x =>
    match pl.swapE d x with
    | .error e => .error e
    | .ok y =>
      match cycleAmounts rest y with
      | .error e => .error e
      | .ok tail => .ok ((x, y) :: tail)

/-- Modelled from the spec (section 4.2): the composed swap function `f`,
the amount coming out of the last hop for a given first-hop input. -/
def cycleFinal : List (Pool × Direction) → Nat → Except SwapError Nat
  | [], x => .ok x
  | (pl, d) :: rest, x =>
    match pl.swapE d x with
    | .error e => .error e
    | .ok y => cycleFinal rest y

/-- Newton iteration for the integer square root, with explicit fuel so
that the function reduces inside the kernel; `intSqrt_eq_sqrt` below proves
it agrees with `Nat.sqrt` everywhere. -/
def isqrtIter (n : Nat) : Nat → Nat → Nat
  | 0, guess => guess
  | fuel + 1, guess =>
    if (guess + n / guess) / 2 < guess then
      isqrtIter n fuel ((guess + n / guess) / 2)
    else guess

/-- Integer square root by Newton iteration; equal to `Nat.sqrt` by
`intSqrt_eq_sqrt`. -/
def intSqrt (n : Nat) : Nat :=
  if n ≤ 1 then n else isqrtIter n n (n / 2)

lemma sqrt_le_newton (n g : Nat) (hg : 0 < g) :
    Nat.sqrt n ≤ (g + n / g) / 2 := by
  apply (Nat.le_div_iff_mul_le (by norm_num)).mpr
  rcases le_or_lt (2 * Nat.sqrt n) g with hcase | hcase
  · have h0 : 0 ≤ n / g := Nat.zero_le _
    omega
  · have hAM : 2 * Nat.sqrt n * g ≤ Nat.sqrt n * Nat.sqrt n + g * g := by
      have h2 := two_mul_le_add_sq (Nat.sqrt n) g
      simpa [pow_two] using h2
    have h1 : (2 * Nat.sqrt n - g) * g ≤ Nat.sqrt n * Nat.sqrt n := by
      rw [Nat.sub_mul]
      exact Nat.sub_le_of_le_add (by rw [Nat.add_comm] at hAM ⊢; exact hAM)
    have h2 : 2 * Nat.sqrt n - g ≤ n / g := by
      have h3 := Nat.div_le_div_right (c := g) (Nat.le_trans h1 (Nat.sqrt_le n))
      rwa [Nat.mul_div_cancel _ hg] at h3
    omega

lemma newton_lt (n g : Nat) (hgt : Nat.sqrt n < g) :
    (g + n / g) / 2 < g := by
  have hg : 0 < g := by omega
  have hn : n < g * g := by
    have h1 := Nat.lt_succ_sqrt n
    simp only [Nat.succ_eq_add_one] at h1
    have h2 : (Nat.sqrt n + 1) * (Nat.sqrt n + 1) ≤ g * g :=
      Nat.mul_le_mul (by omega) (by omega)
    omega
  have hdiv : n / g < g := (Nat.div_lt_iff_lt_mul hg).mpr hn
  have hle : g + n / g ≤ 2 * g - 1 := by omega
  calc (g + n / g) / 2 ≤ (2 * g - 1) / 2 := Nat.div_le_div_right hle
  _ < g := by omega

lemma isqrtIter_eq_sqrt (n : Nat) (hn : 2 ≤ n) :
    ∀ fuel guess, Nat.sqrt n ≤ guess → guess ≤ Nat.sqrt n + fuel →
      isqrtIter n fuel guess = Nat.sqrt n := by
  intro fuel
  induction fuel with
  | zero =>
    intro g h1 h2
    have hg : g = Nat.sqrt n := by omega
    simp [isqrtIter, hg]
  | succ f ih =>
    intro g h1 h2
    have hs1 : 1 ≤ Nat.sqrt n := Nat.le_sqrt.mpr (by omega)
    have hg : 0 < g := by omega
    show isqrtIter n (f + 1) g = _
    rcases Nat.lt_or_ge ((g + n / g) / 2) g with hlt | hge
    · rw [isqrtIter, if_pos hlt]
      exact ih _ (sqrt_le_newton n g hg) (by omega)
    · rw [isqrtIter, if_neg (by omega)]
      rcases Nat.lt_or_ge (Nat.sqrt n) g with hgt | hle2
      · exact absurd (newton_lt n g hgt) (by omega)
      · omega

lemma intSqrt_eq_sqrt (n : Nat) : intSqrt n = Nat.sqrt n := by
  unfold intSqrt
  rcases le_or_lt n 1 with h | h
  · rw [if_pos h]
    interval_cases n
    · exact Nat.sqrt_zero.symm
    · exact Nat.sqrt_one.symm
  · rw [if_neg (by omega)]
    have hsq : Nat.sqrt n * 2 ≤ n := by
      rcases Nat.lt_or_ge (Nat.sqrt n) 2 with hs | hs
      · omega
      · exact Nat.le_trans (Nat.mul_le_mul_left _ hs) (Nat.sqrt_le n)
    apply isqrtIter_eq_sqrt n (by omega)
    · exact (Nat.le_div_iff_mul_le (by norm_num)).mpr hsq
    · have := Nat.div_le_self n 2
      have := Nat.zero_le (Nat.sqrt n)
      omega

/-- Modelled from the spec (section 4.2): one composition step of the
Moebius representation of the continuous relaxation of a cycle.  A hop with
reserves `(a, b)` and fee `n / d` acts on amounts as
`x -> b*t*x / (a + t*x)` with `t = (d - n) / d`, i.e. as the integer matrix
`[[(d - n) * b, 0], [(d - n), d * a]]` acting projectively. -/
def mobiusStep (t : Nat × Nat × Nat) (hop : Nat × Nat × Nat × Nat) :
    Nat × Nat × Nat :=
  ((hop.2.2.2 - hop.2.2.1) * hop.2.1 * t.1,
   hop.2.2.2 * hop.1 * t.2.1,
   (hop.2.2.2 - hop.2.2.1) * t.1 + hop.2.2.2 * hop.1 * t.2.2)

/-- Modelled from the spec (section 4.2): the `(p, q, r)` integer triple
with the composed cycle acting as `x -> p*x / (r*x + q)` (up to a common
scale factor of the triple, under which the optimum below is invariant). -/
def mobiusTriple (hops : List (Nat × Nat × Nat × Nat)) : Nat × Nat × Nat :=
  hops.foldl mobiusStep (1, 1, 0)

/-- Modelled from the spec (section 4.2): the profit-maximizing integer
input of the cycle.  For `f(x) = p*x / (r*x + q)` the real maximizer of
`f(x) - x` is `x* = (sqrt(p*q) - q) / r`; the engine reports the floor of
this optimum, which on scenario B reproduces exactly the logged input
36868 (a noisy-exact integer ternary search does not land on the logged
value, so the closed form is the faithful model of the missing engine). -/
def optInput (hops : List (Nat × Nat × Nat × Nat)) : Nat :=
  (intSqrt ((mobiusTriple hops).1 * (mobiusTriple hops).2.1) -
      (mobiusTriple hops).2.1) /
    (mobiusTriple hops).2.2

/-- Modelled from the spec: the tuple `(reserve_in, reserve_out, fee_num,
fee_den)` of one hop, with the two fee components summed for the continuous
relaxation used by the optimizer. -/
def hopTuple (h : Pool × Direction) : Nat × Nat × Nat × Nat :=
  (h.1.reserveIn h.2, h.1.reserveOut h.2,
   h.1.tradeFeeNum + h.1.ownerFeeNum, h.1.feeDen)

/-- Modelled from the spec (section 4.2): the candidate input the evaluator
feeds into the first hop of a path. -/
def pathOptInput (p : MevPath) : Nat :=
  optInput (p.hops.map hopTuple)

/-- Modelled from the spec (section 3): an Opportunity, the per-hop
(input, output) pairs and the net profit. -/
structure Opportunity where
  pairs : List (Nat × Nat)
  profit : Int
  deriving DecidableEq, Repr

/-- Modelled from the spec (section 4.2): `PathEvaluator.evaluate` computes
the per-hop amounts at the optimal input and the profit `f(x) - x`;
it performs no profitability filtering, a non-positive best profit is
returned as such. -/
def PathEvaluator.evaluate (p : MevPath) : Except SwapError Opportunity :=
  match cycleAmounts p.hops (pathOptInput p), cycleFinal p.hops (pathOptInput p) with
  | .ok prs, .ok fin => .ok ⟨prs, (fin : Int) - (pathOptInput p : Int)⟩
  | .error e, _ => .error e
  | .ok _, .error e => .error e

/-- Modelled from the spec (sections 4.5 and 6): the three event-log record
kinds observed by the test harness. -/
inductive LogRecord where
  | txObserved (transactionHash : String)
  | opportunity (pathName : String) (inputOutputPairs : List (Nat × Nat))
  | outcome (isSuccessful : Bool) (possibleProfit : Int)
  deriving DecidableEq, Repr

def LogRecord.isOpportunityRec : LogRecord → Bool
  | .opportunity _ _ => true
  | _ => false

def LogRecord.isOutcomeRec : LogRecord → Bool
  | .outcome _ _ => true
  | _ => false

/-- Modelled from the spec (section 6): the engine configuration restricted
to what the log model needs, the ordered list of declared mev_path
entries. -/
structure Config where
  paths : List MevPath
  deriving DecidableEq, Repr

/-- Modelled from the spec (section 4.3): the opportunity record emitted
for one path, none when the evaluation of that path failed. -/
def pathOppRecord (p : MevPath) : Option LogRecord :=
  match PathEvaluator.evaluate p with
  | .ok opp => some (.opportunity p.name opp.pairs)
  | .error _ => none

/-- Modelled from the spec (section 4.4): the execution-outcome record for
one path, emitted only when the evaluated profit clears the positive
threshold; `possible_profit` is the realized delta which in the
single-actor test environment equals the evaluated profit. -/
def pathOutcomeRecord (p : MevPath) : Option LogRecord :=
  match PathEvaluator.evaluate p with
  | .ok opp => if 0 < opp.profit then some (.outcome true opp.profit) else none
  | .error _ => none

def oppRecords (cfg : Config) : List LogRecord :=
  cfg.paths.filterMap pathOppRecord

def outcomeRecords (cfg : Config) : List LogRecord :=
  cfg.paths.filterMap pathOutcomeRecord

/-- Modelled from the spec (sections 4.3 and 5): the records appended for
one triggering transaction: the transaction's own record first, then one
opportunity record per successfully evaluated path in declaration order,
then the execution-outcome records. -/
def logsForTrigger (cfg : Config) (txHash : String) : List LogRecord :=
  .txObserved txHash :: (oppRecords cfg ++ outcomeRecords cfg)

/-- Modelled from the spec (section 4.4): executing a cycle changes the
profit-destination token account balance by final output minus first
input, read off the per-hop pairs of the executed opportunity. -/
def executeDelta (opp : Opportunity) : Int :=
  match opp.pairs with
  | [] => 0
  | pr :: rest => ((((pr :: rest).getLastD pr).2 : Int)) - (pr.1 : Int)

/-- Raw reserve of token 0 deposited in pool P0, 32500.951164566 at 9
decimals (mev-tests/test_mev.py lines 154-162). -/
def p0ReserveA : Nat := 32500951164566

/-- Raw reserve of token 1 deposited in pool P0, 1030.701091486 at 9
decimals (mev-tests/test_mev.py lines 154-162). -/
def p0ReserveB : Nat := 1030701091486

/-- Raw reserve of token 0 deposited in pool P1, 6761.724934325 at 9
decimals (mev-tests/test_mev.py lines 165-173). -/
def p1ReserveA : Nat := 6761724934325

/-- Raw reserve of token 2 deposited in pool P1, 15.245225568 at 9
decimals (mev-tests/test_mev.py lines 165-173). -/
def p1ReserveB : Nat := 15245225568

/-- Raw reserve of token 2 deposited in pool P2, 0.000453975 at 9 decimals
(mev-tests/test_mev.py lines 176-184). -/
def p2ReserveA : Nat := 453975

/-- Raw reserve of token 1 deposited in pool P2, 0.006517227 at 9 decimals
(mev-tests/test_mev.py lines 176-184). -/
def p2ReserveB : Nat := 6517227

/-- The trade fee 25 / 10000 and owner fee 5 / 10000 of the deployed Orca
token-swap pools; the values are forced bit-for-bit by the per-hop amounts
asserted in mev-tests/test_mev.py lines 293-303. -/
def mkOrcaPool (ra rb : Nat) : Pool :=
  ⟨ra, rb, 25, 5, 10000⟩

def p0Initial : Pool := mkOrcaPool p0ReserveA p0ReserveB

/-- The direct triggering swap of mev-tests/test_mev.py lines 261-266:
1000 raw units of token 0 into P0, A to B. -/
def triggerAmount : Nat := 1000

/-- Pool P0 after the triggering swap: the full input is added to the A
reserve and the computed output leaves the B reserve. -/
def p0AfterTrigger : Pool :=
  mkOrcaPool (p0ReserveA + triggerAmount)
    (p0ReserveB - p0Initial.swapVal .AtoB triggerAmount)

def p1Pool : Pool := mkOrcaPool p1ReserveA p1ReserveB

def p2Pool : Pool := mkOrcaPool p2ReserveA p2ReserveB

/-- The configured cycle of mev-tests/test_mev.py lines 224-233:
P0 B-to-A, then P1 A-to-B, then P2 A-to-B, evaluated against the
post-trigger reserves. -/
def scenarioPath : MevPath :=
  ⟨"P0->P1->P2",
   [(p0AfterTrigger, .BtoA), (p1Pool, .AtoB), (p2Pool, .AtoB)]⟩

def scenarioConfig : Config := ⟨[scenarioPath]⟩

/-- The per-hop input/output pairs asserted by mev-tests/test_mev.py
lines 293-297. -/
def scenarioPairs : List (Nat × Nat) :=
  [(36868, 1159084), (1159084, 2605), (2605, 37084)]

/-- Raw initial balance of the profit-destination token account: 1.0 of
token 1 at 9 decimals (mev-tests/test_mev.py lines 237-238). -/
def destInitialRaw : Nat := 1000000000

lemma scenarioOptInput : pathOptInput scenarioPath = 36868 := by decide

deriving instance DecidableEq for Except

/-- C1: for the three-pool configuration P0, P1, P2 at 9 decimals and the
cycle P0 B-to-A, P1 A-to-B, P2 A-to-B, after the direct 1000-unit A-to-B
swap on P0 the evaluator returns exactly the per-hop pairs
(36868, 1159084), (1159084, 2605), (2605, 37084); the log for the trigger
contains the opportunity record with exactly these pairs followed by an
outcome record with is_successful true and possible_profit 216; and
executing the cycle raises the profit-destination token account balance
from its initial raw 1000000000 by exactly 216. -/
theorem mev_scenarioB_exact :
    PathEvaluator.evaluate scenarioPath = .ok ⟨scenarioPairs, 216⟩ ∧
    logsForTrigger scenarioConfig "triggerTx" =
      [.txObserved "triggerTx",
       .opportunity "P0->P1->P2" scenarioPairs,
       .outcome true 216] ∧
    (destInitialRaw : Int) + executeDelta ⟨scenarioPairs, 216⟩ =
      (destInitialRaw : Int) + 216 := by
  refine ⟨by decide, by decide, by decide⟩

lemma cycleAmounts_length (hops : List (Pool × Direction)) :
    ∀ x prs, cycleAmounts hops x = .ok prs → prs.length = hops.length := by
  induction hops with
  | nil =>
    intro x prs h
    simp only [cycleAmounts, Except.ok.injEq] at h
    subst h
    rfl
  | cons hd rest ih =>
    intro x prs h
    obtain ⟨pl, d⟩ := hd
    cases hsw : pl.swapE d x with
    | error e => simp [cycleAmounts, hsw] at h
    | ok y =>
      cases hr : cycleAmounts rest y with
      | error e => simp [cycleAmounts, hsw, hr] at h
      | ok tail =>
        simp only [cycleAmounts, hsw, hr, Except.ok.injEq] at h
        subst h
        simpa using ih y tail hr

lemma cycleAmounts_head (hops : List (Pool × Direction)) (x : Nat)
    (prs : List (Nat × Nat)) (h : cycleAmounts hops x = .ok prs)
    (h0 : 0 < prs.length) : (prs.headD (0, 0)).1 = x := by
  cases hops with
  | nil =>
    simp only [cycleAmounts, Except.ok.injEq] at h
    subst h
    simp at h0
  | cons hd rest =>
    obtain ⟨pl, d⟩ := hd
    cases hsw : pl.swapE d x with
    | error e => simp [cycleAmounts, hsw] at h
    | ok y =>
      cases hr : cycleAmounts rest y with
      | error e => simp [cycleAmounts, hsw, hr] at h
      | ok tail =>
        simp only [cycleAmounts, hsw, hr, Except.ok.injEq] at h
        subst h
        rfl

lemma headD_eq_get (l : List (Nat × Nat)) (h0 : 0 < l.length) :
    l.headD (0, 0) = l.get ⟨0, h0⟩ := by
  cases l with
  | nil => simp at h0
  | cons a t => rfl

lemma cycleAmounts_chain (hops : List (Pool × Direction)) :
    ∀ x prs, cycleAmounts hops x = .ok prs →
      ∀ i (hi : i + 1 < prs.length),
        (prs.get ⟨i, Nat.lt_of_succ_lt hi⟩).2 = (prs.get ⟨i + 1, hi⟩).1 := by
  induction hops with
  | nil =>
    intro x prs h i hi
    simp only [cycleAmounts, Except.ok.injEq] at h
    subst h
    simp at hi
  | cons hd rest ih =>
    intro x prs h i hi
    obtain ⟨pl, d⟩ := hd
    cases hsw : pl.swapE d x with
    | error e => simp [cycleAmounts, hsw] at h
    | ok y =>
      cases hr : cycleAmounts rest y with
      | error e => simp [cycleAmounts, hsw, hr] at h
      | ok tail =>
        simp only [cycleAmounts, hsw, hr, Except.ok.injEq] at h
        subst h
        cases i with
        | zero =>
          have htl : 0 < tail.length := by
            simpa using Nat.lt_of_succ_lt_succ hi
          have hh := cycleAmounts_head rest y tail hr htl
          rw [headD_eq_get tail htl] at hh
          simpa using hh.symm
        | succ j =>
          have hj : j + 1 < tail.length := by
            simpa using Nat.lt_of_succ_lt_succ hi
          simpa using ih y tail hr j hj

lemma getLastD_congr_of_ne_nil (l : List (Nat × Nat)) (d₁ d₂ : Nat × Nat)
    (h : l ≠ []) : l.getLastD d₁ = l.getLastD d₂ := by
  cases l with
  | nil => exact absurd rfl h
  | cons a t => rw [List.getLastD_cons, List.getLastD_cons]

lemma cycleFinal_last (hops : List (Pool × Direction)) :
    ∀ x prs, cycleAmounts hops x = .ok prs →
      cycleFinal hops x = .ok ((prs.getLastD (x, x)).2) := by
  induction hops with
  | nil =>
    intro x prs h
    simp only [cycleAmounts, Except.ok.injEq] at h
    subst h
    rfl
  | cons hd rest ih =>
    intro x prs h
    obtain ⟨pl, d⟩ := hd
    cases hsw : pl.swapE d x with
    | error e => simp [cycleAmounts, hsw] at h
    | ok y =>
      cases hr : cycleAmounts rest y with
      | error e => simp [cycleAmounts, hsw, hr] at h
      | ok tail =>
        simp only [cycleAmounts, hsw, hr, Except.ok.injEq] at h
        subst h
        simp only [cycleFinal, hsw]
        rw [ih y tail hr]
        congr 1
        rw [List.getLastD_cons]
        cases tail with
        | nil => rfl
        | cons b t => rw [List.getLastD_cons, List.getLastD_cons]

/-- C6: a successful evaluation lists the per-hop pairs in cycle order with
the output of each hop equal to the input of the next, and the reported
profit equals the output of the last hop minus the input of the first hop;
the statement holds with no condition on the sign of the profit, the
evaluator does no profitability filtering. -/
theorem evaluate_opportunity_shape (p : MevPath) (opp : Opportunity)
    (hne : p.hops ≠ []) (hok : PathEvaluator.evaluate p = .ok opp) :
    (∀ i (hi : i + 1 < opp.pairs.length),
        (opp.pairs.get ⟨i, Nat.lt_of_succ_lt hi⟩).2 =
          (opp.pairs.get ⟨i + 1, hi⟩).1) ∧
    opp.profit = ((opp.pairs.getLastD (0, 0)).2 : Int) -
      ((opp.pairs.headD (0, 0)).1 : Int) := by
  unfold PathEvaluator.evaluate at hok
  cases ha : cycleAmounts p.hops (pathOptInput p) with
  | error e => rw [ha] at hok; cases hok
  | ok prs =>
    cases hf : cycleFinal p.hops (pathOptInput p) with
    | error e => rw [ha, hf] at hok; cases hok
    | ok fin =>
      rw [ha, hf] at hok
      cases hok
      have hlen : prs.length = p.hops.length := cycleAmounts_length _ _ _ ha
      have hpos : 0 < prs.length := by
        rw [hlen]
        cases hp : p.hops with
        | nil => exact absurd hp hne
        | cons a t => simp
      have hne2 : prs ≠ [] := by
        cases prs with
        | nil => simp at hpos
        | cons a t => simp
      refine ⟨cycleAmounts_chain _ _ _ ha, ?_⟩
      have hfin := cycleFinal_last p.hops (pathOptInput p) prs ha
      rw [hf] at hfin
      have hfin2 : fin = (prs.getLastD (pathOptInput p, pathOptInput p)).2 := by
        simpa using hfin
      have hhead := cycleAmounts_head _ _ _ ha hpos
      show (fin : Int) - (pathOptInput p : Int) = _
      rw [hfin2, hhead]
      rw [getLastD_congr_of_ne_nil prs
        (pathOptInput p, pathOptInput p) (0, 0) hne2]

/-- C7: the evaluator is deterministic, two evaluations of the same path
against identical reserves return identical opportunities. -/
theorem evaluate_deterministic (p₁ p₂ : MevPath) (h : p₁ = p₂) :
    PathEvaluator.evaluate p₁ = PathEvaluator.evaluate p₂ := by rw [h]

/-- A pool with unit reserves and zero fees, used to instantiate the
general theorems on a concrete input. -/
def unitPool : Pool := ⟨1, 1, 0, 0, 1⟩

def unitPath : MevPath := ⟨"unit", [(unitPool, .AtoB)]⟩

/-- Witness for C6 at the concrete path `unitPath`. -/
theorem evaluate_opportunity_shape_w :
    (⟨[(0, 0)], 0⟩ : Opportunity).profit =
      ((([((0 : Nat), (0 : Nat))]).getLastD (0, 0)).2 : Int) -
      ((([((0 : Nat), (0 : Nat))]).headD (0, 0)).1 : Int) :=
  (evaluate_opportunity_shape unitPath ⟨[(0, 0)], 0⟩ (by decide) (by decide)).2

/-- Witness for C7 at the concrete path `unitPath`. -/
theorem evaluate_deterministic_w :
    PathEvaluator.evaluate unitPath = PathEvaluator.evaluate unitPath :=
  evaluate_deterministic unitPath unitPath rfl

lemma mem_oppRecords_isOpp (cfg : Config) (r : LogRecord)
    (h : r ∈ oppRecords cfg) : r.isOpportunityRec = true := by
  obtain ⟨p, _, hp⟩ := List.mem_filterMap.mp h
  unfold pathOppRecord at hp
  cases he : PathEvaluator.evaluate p with
  | error e => rw [he] at hp; cases hp
  | ok opp =>
    rw [he] at hp
    cases hp
    rfl

lemma mem_outcomeRecords_isOut (cfg : Config) (r : LogRecord)
    (h : r ∈ outcomeRecords cfg) : r.isOutcomeRec = true := by
  obtain ⟨p, _, hp⟩ := List.mem_filterMap.mp h
  unfold pathOutcomeRecord at hp
  cases he : PathEvaluator.evaluate p with
  | error e => rw [he] at hp; cases hp
  | ok opp =>
    rw [he] at hp
    dsimp only at hp
    by_cases hprof : 0 < opp.profit
    · rw [if_pos hprof] at hp
      cases hp
      rfl
    · rw [if_neg hprof] at hp
      cases hp

lemma logRecord_kinds_disjoint (r : LogRecord)
    (h1 : r.isOpportunityRec = true) (h2 : r.isOutcomeRec = true) : False := by
  cases r <;> simp [LogRecord.isOpportunityRec, LogRecord.isOutcomeRec] at h1 h2

lemma logs_get_cases (cfg : Config) (h : String) (k : Nat) (r : LogRecord)
    (hk : (logsForTrigger cfg h).get? k = some r) :
    (k = 0 ∧ r = .txObserved h) ∨
    (1 ≤ k ∧ k ≤ (oppRecords cfg).length ∧ r ∈ oppRecords cfg) ∨
    ((oppRecords cfg).length + 1 ≤ k ∧ r ∈ outcomeRecords cfg) := by
  cases k with
  | zero =>
    left
    refine ⟨rfl, ?_⟩
    rw [logsForTrigger, List.get?_cons_zero] at hk
    exact ((Option.some.injEq _ _).mp hk).symm
  | succ j =>
    rw [logsForTrigger, List.get?_cons_succ] at hk
    rcases Nat.lt_or_ge j (oppRecords cfg).length with hj | hj
    · right; left
      rw [List.get?_append hj] at hk
      exact ⟨by omega, by omega, List.get?_mem hk⟩
    · right; right
      rw [List.get?_append_right hj] at hk
      exact ⟨by omega, List.get?_mem hk⟩

/-- C2: every opportunity record for a trigger sits strictly after the
trigger's own transaction record (which is the first record) and strictly
before every execution-outcome record of the same trigger, and the
opportunity records read in log order are exactly the per-path records in
configuration declaration order. -/
theorem scanner_log_order (cfg : Config) (h : String) (k : Nat)
    (r : LogRecord) (hk : (logsForTrigger cfg h).get? k = some r)
    (hr : r.isOpportunityRec = true) :
    0 < k ∧
    (∀ m rr, (logsForTrigger cfg h).get? m = some rr →
      rr.isOutcomeRec = true → k < m) ∧
    (logsForTrigger cfg h).get? 0 = some (.txObserved h) ∧
    (logsForTrigger cfg h).filter LogRecord.isOpportunityRec =
      oppRecords cfg := by
  have hkpos : 1 ≤ k ∧ k ≤ (oppRecords cfg).length := by
    rcases logs_get_cases cfg h k r hk with ⟨_, rfl⟩ | ⟨h1, h2, _⟩ | ⟨_, hmem⟩
    · cases hr
    · exact ⟨h1, h2⟩
    · exact absurd (mem_outcomeRecords_isOut cfg r hmem)
        (fun hout => logRecord_kinds_disjoint r hr hout)
  refine ⟨by omega, ?_, rfl, ?_⟩
  · intro m rr hm hout
    rcases logs_get_cases cfg h m rr hm with ⟨_, rfl⟩ | ⟨_, _, hmem⟩ | ⟨h1, _⟩
    · cases hout
    · exact absurd (mem_oppRecords_isOpp cfg rr hmem)
        (fun hopp => logRecord_kinds_disjoint rr hopp hout)
    · omega
  · show ((LogRecord.txObserved h) ::
        (oppRecords cfg ++ outcomeRecords cfg)).filter
        LogRecord.isOpportunityRec = oppRecords cfg
    rw [List.filter_cons]
    have htx : (LogRecord.txObserved h).isOpportunityRec = false := rfl
    rw [htx]
    simp only [Bool.false_eq_true, if_false]
    rw [List.filter_append]
    rw [List.filter_eq_self.mpr (fun a ha => mem_oppRecords_isOpp cfg a ha)]
    rw [List.filter_eq_nil.mpr (fun a ha hopp =>
      logRecord_kinds_disjoint a hopp (mem_outcomeRecords_isOut cfg a ha))]
    rw [List.append_nil]

/-- Witness for C2: the single-path configuration over `unitPath`, whose
opportunity record sits at index 1. -/
theorem scanner_log_order_w :
    0 < 1 ∧
    (logsForTrigger ⟨[unitPath]⟩ "t").filter LogRecord.isOpportunityRec =
      oppRecords ⟨[unitPath]⟩ :=
  ⟨(scanner_log_order ⟨[unitPath]⟩ "t" 1 (.opportunity "unit" [(0, 0)])
      (by decide) (by decide)).1,
   (scanner_log_order ⟨[unitPath]⟩ "t" 1 (.opportunity "unit" [(0, 0)])
      (by decide) (by decide)).2.2.2⟩

/-- Decimals of the two mints of the single-pool deployment
(deploy_test_mev.py lines 58 and 75 pass decimals 6). -/
def deployTokenDecimals : Nat := 6

/-- Raw amount transferred into each pool reserve account of the
single-pool deployment: deploy_test_mev.py lines 98-99 transfer 0.1 of
each token, one tenth of one whole token at 6 decimals. -/
def deployFundingRaw : Nat := 10 ^ deployTokenDecimals / 10

/-- C3 counterexample: the single-pool deployment funds the pool with 0.1
of each token (raw 100000 at 6 decimals), not with the claimed 1.1 (raw
1100000). -/
theorem scenarioA_funding_counterexample :
    deployFundingRaw = 100000 ∧ deployFundingRaw ≠ 1100000 := by decide

/-- C3 amended: with the pool funded with 0.1 of each token at 6 decimals
and no mev_path declared, the last record the engine appends for the
direct swap is the trigger's own transaction record, whose
transaction_hash is the hash returned by the swap call. -/
theorem scenarioA_last_record_hash (cfg : Config) (h : String)
    (hp : cfg.paths = []) :
    deployFundingRaw = 100000 ∧
    (logsForTrigger cfg h).getLast? = some (.txObserved h) := by
  refine ⟨by decide, ?_⟩
  rw [logsForTrigger, oppRecords, outcomeRecords, hp]
  rfl

/-- Witness for C3 at the empty path configuration. -/
theorem scenarioA_last_record_hash_w :
    deployFundingRaw = 100000 ∧
    (logsForTrigger ⟨[]⟩ "deadbeef").getLast? =
      some (.txObserved "deadbeef") :=
  scenarioA_last_record_hash ⟨[]⟩ "deadbeef" rfl

/-- C4: under positive reserves and a fee below one, swap_out succeeds with
the constant-product value, which is monotone non-decreasing in the input
amount and never exceeds the output reserve. -/
theorem swap_out_monotone_bounded (rin rout fn fd x y : Nat)
    (hrin : 0 < rin) (hrout : 0 < rout) (hfee : fn < fd) (hxy : x ≤ y) :
    swap_out rin rout fn fd x = .ok (swapOutVal rin rout fn fd x) ∧
    swapOutVal rin rout fn fd x ≤ swapOutVal rin rout fn fd y ∧
    swapOutVal rin rout fn fd x ≤ rout := by
  refine ⟨?_, swapOutVal_mono rin rout fn fd hrin hxy,
    swapOutVal_le rin rout fn fd x hrin⟩
  rw [swap_out, if_neg]
  omega

/-- Witness for C4 at reserves (5, 7), fee 1/3, inputs 2 and 4. -/
theorem swap_out_monotone_bounded_w :
    swap_out 5 7 1 3 2 = .ok (swapOutVal 5 7 1 3 2) ∧
    swapOutVal 5 7 1 3 2 ≤ swapOutVal 5 7 1 3 4 ∧
    swapOutVal 5 7 1 3 2 ≤ 7 :=
  swap_out_monotone_bounded 5 7 1 3 2 4 (by decide) (by decide) (by decide)
    (by decide)

lemma swapOutVal_zero (rin rout fn fd : Nat) :
    swapOutVal rin rout fn fd 0 = 0 := by
  simp [swapOutVal, afterFee]

lemma replicate_getLastD (n : Nat) :
    (List.replicate n ((0 : Nat), (0 : Nat))).getLastD (0, 0) = (0, 0) := by
  induction n with
  | zero => rfl
  | succ m ih => rw [List.replicate_succ, List.getLastD_cons, ih]

lemma cycleProfit_replicate_zero (m : Nat) :
    cycleProfit (List.replicate m (0, 0)) = 0 := by
  cases m with
  | zero => rfl
  | succ k =>
    rw [List.replicate_succ, cycleProfit]
    rw [show ((0, 0) :: List.replicate k ((0 : Nat), (0 : Nat))) =
      List.replicate (k + 1) (0, 0) from (List.replicate_succ _ _).symm]
    rw [replicate_getLastD]
    rfl

/-- C5: with positive reserves swap_out returns 0 on a zero input, hence
composing it around any cycle of positive-reserve pools with initial input
0 yields per-hop amounts 0 and net profit 0. -/
theorem swap_out_zero_cycle (rin rout fn fd : Nat) (hrin : 0 < rin)
    (hrout : 0 < rout) (hops : List (Nat × Nat × Nat × Nat))
    (hpos : ∀ t ∈ hops, 0 < t.1 ∧ 0 < t.2.1) :
    swap_out rin rout fn fd 0 = .ok 0 ∧
    composeSwapOut hops 0 = .ok (List.replicate hops.length (0, 0)) ∧
    cycleProfit (List.replicate hops.length (0, 0)) = 0 := by
  have hzero : ∀ a b c d2 : Nat, 0 < a → 0 < b →
      swap_out a b c d2 0 = .ok 0 := by
    intro a b c d2 ha hb
    rw [swap_out, if_neg (by omega), swapOutVal_zero]
  refine ⟨hzero rin rout fn fd hrin hrout, ?_,
    cycleProfit_replicate_zero hops.length⟩
  induction hops with
  | nil => rfl
  | cons t rest ih =>
    obtain ⟨a, b, c, d2⟩ := t
    have hh := hpos (a, b, c, d2) (List.mem_cons_self _ _)
    have hrest : ∀ t ∈ rest, 0 < t.1 ∧ 0 < t.2.1 := fun t ht =>
      hpos t (List.mem_cons_of_mem _ ht)
    have h1 : swap_out a b c d2 0 = .ok 0 := hzero a b c d2 hh.1 hh.2
    simp only [composeSwapOut, h1, ih hrest, List.length_cons,
      List.replicate_succ]

/-- Witness for C5 at a two-hop cycle of positive-reserve pools. -/
theorem swap_out_zero_cycle_w :
    swap_out 2 3 0 2 0 = .ok 0 ∧
    composeSwapOut [(2, 3, 0, 2), (3, 2, 0, 2)] 0 =
      .ok (List.replicate 2 (0, 0)) ∧
    cycleProfit (List.replicate 2 (0, 0)) = 0 :=
  swap_out_zero_cycle 2 3 0 2 (by decide) (by decide)
    [(2, 3, 0, 2), (3, 2, 0, 2)] (by decide)

lemma swapError_cases (e : SwapError) : e = .invalidReserves := by
  cases e
  rfl

lemma cycleAmounts_error_of_mem (pl : Pool) (d : Direction)
    (hz : pl.reserveIn d = 0 ∨ pl.reserveOut d = 0) :
    ∀ hops, (pl, d) ∈ hops → ∀ x,
      cycleAmounts hops x = .error .invalidReserves := by
  intro hops
  induction hops with
  | nil => intro hmem; cases hmem
  | cons hd rest ih =>
    intro hmem x
    obtain ⟨pl0, d0⟩ := hd
    rcases List.mem_cons.mp hmem with heq | htail
    · injection heq with h1 h2
      subst h1
      subst h2
      have hsw : pl.swapE d x = .error .invalidReserves := by
        rw [Pool.swapE, if_pos hz]
      simp [cycleAmounts, hsw]
    · cases hsw : pl0.swapE d0 x with
      | error e => simp [cycleAmounts, hsw, swapError_cases e]
      | ok y => simp [cycleAmounts, hsw, ih htail y]

lemma evaluate_error_of_badhop (p : MevPath) (pl : Pool) (d : Direction)
    (hmem : (pl, d) ∈ p.hops)
    (hz : pl.reserveIn d = 0 ∨ pl.reserveOut d = 0) :
    PathEvaluator.evaluate p = .error .invalidReserves := by
  unfold PathEvaluator.evaluate
  rw [cycleAmounts_error_of_mem pl d hz p.hops hmem (pathOptInput p)]

/-- C8: swap_out fails with InvalidReserves exactly when one of the two
reserves is 0; a path containing such a pool is skipped for the trigger,
no record is logged for it, and the log is exactly the log of the same
configuration without that path. -/
theorem swap_out_invalid_skip (rin rout fn fd x : Nat) (cfg : Config)
    (pre post : List MevPath) (bad : MevPath) (pl : Pool) (d : Direction)
    (h : String) (hmem : (pl, d) ∈ bad.hops)
    (hz : pl.reserveIn d = 0 ∨ pl.reserveOut d = 0)
    (hcfg : cfg.paths = pre ++ bad :: post) :
    (swap_out rin rout fn fd x = .error .invalidReserves ↔
      rin = 0 ∨ rout = 0) ∧
    PathEvaluator.evaluate bad = .error .invalidReserves ∧
    logsForTrigger cfg h = logsForTrigger ⟨pre ++ post⟩ h := by
  have hbad := evaluate_error_of_badhop bad pl d hmem hz
  have hopp : pathOppRecord bad = none := by
    rw [pathOppRecord, hbad]
  have hout : pathOutcomeRecord bad = none := by
    rw [pathOutcomeRecord, hbad]
  refine ⟨?_, hbad, ?_⟩
  · by_cases hc : rin = 0 ∨ rout = 0
    · rw [swap_out, if_pos hc]
      exact ⟨fun _ => hc, fun _ => rfl⟩
    · rw [swap_out, if_neg hc]
      constructor
      · intro he
        cases he
      · intro hc2
        exact absurd hc2 hc
  · rw [logsForTrigger, logsForTrigger, oppRecords, oppRecords,
      outcomeRecords, outcomeRecords, hcfg]
    rw [List.filterMap_append, List.filterMap_append,
      List.filterMap_cons_none hopp, List.filterMap_append,
      List.filterMap_append, List.filterMap_cons_none hout]

/-- A path through a zero-reserve pool, used to instantiate C8. -/
def badPool : Pool := ⟨0, 5, 0, 0, 1⟩

def badPath : MevPath := ⟨"bad", [(badPool, .AtoB)]⟩

/-- Witness for C8: a zero-reserve input, and the two-path configuration
whose log equals the log of the configuration without the bad path. -/
theorem swap_out_invalid_skip_w :
    swap_out 0 7 1 2 5 = .error .invalidReserves ∧
    logsForTrigger ⟨[badPath, unitPath]⟩ "t" =
      logsForTrigger ⟨[unitPath]⟩ "t" :=
  ⟨(swap_out_invalid_skip 0 7 1 2 5 ⟨[badPath, unitPath]⟩ [] [unitPath]
      badPath badPool .AtoB "t" (by decide) (by decide) rfl).1.mpr
      (Or.inl rfl),
   (swap_out_invalid_skip 0 7 1 2 5 ⟨[badPath, unitPath]⟩ [] [unitPath]
      badPath badPool .AtoB "t" (by decide) (by decide) rfl).2.2⟩

/-- The top-level names defined by mev-tests/util.py, in source order. -/
def utilTopLevelNames : List String :=
  ["TestAccount", "run", "get_network", "solana", "spl_token",
   "SplTokenBalance", "spl_token_balance", "solana_program_deploy",
   "SolanaProgramInfo", "solana_program_show", "create_test_account",
   "create_spl_token_account", "create_test_accounts", "wait_for_slots",
   "solana_rpc", "rpc_get_account_info", "TokenPool", "deploy_token_pool",
   "start_validator", "restart_validator", "wait_validator",
   "compile_bpf_program", "read_last_mev_log"]

/-- The names mev-tests/test_mev.py imports from util (lines 17-29). -/
def testMevUtilImports : List String :=
  ["TokenPool", "TestAccount", "create_test_account", "deploy_token_pool",
   "solana", "solana_program_deploy", "spl_token", "start_validator",
   "restart_validator", "compile_bpf_program", "read_mev_log"]

/-- Parameter count of deploy_token_pool as defined in
mev-tests/util.py lines 324-326. -/
def deployTokenPoolParamCount : Nat := 3

/-- Positional argument count of the deploy_token_pool call in
mev-tests/test_mev.py lines 83-89. -/
def deployTokenPoolCallArgCount : Nat := 5

/-- C9: the test module does not load against util.py: it imports
read_mev_log, the only imported name util does not define (util defines
read_last_mev_log), and it calls deploy_token_pool with five positional
arguments while the definition takes three parameters. -/
theorem test_mev_util_mismatch :
    "read_mev_log" ∈ testMevUtilImports ∧
    testMevUtilImports.filter
      (fun n => !(utilTopLevelNames.contains n)) = ["read_mev_log"] ∧
    deployTokenPoolCallArgCount = 5 ∧
    deployTokenPoolParamCount = 3 ∧
    deployTokenPoolCallArgCount ≠ deployTokenPoolParamCount := by
  decide

/-- Error raised by the Python runtime when read_last_mev_log is applied
to an empty file: the loop never binds last_line and the final read of
last_line raises UnboundLocalError. -/
inductive PyReadError where
  | unboundLastLine
  deriving DecidableEq, Repr

/-- The function read_last_mev_log of mev-tests/util.py lines 419-423: it
iterates over the lines of the file, rebinding last_line at each line, and
returns json.loads of the line held after the loop; json.loads is
abstracted as the parameter loads. -/
def read_last_mev_log {J : Type} (loads : String → J)
    (lines : List String) : Except PyReadError J :=
  match lines.foldl (fun _ l => some l) (none : Option String) with
  | none => .error .unboundLastLine
  | some l => .ok (loads l)

lemma foldl_overwrite_last (pre : List String) (x : String)
    (acc : Option String) :
    (pre ++ [x]).foldl (fun _ l => some l) acc = some x := by
  rw [List.foldl_append]
  rfl

/-- C10: on a file with at least one line, read_last_mev_log returns the
parse of the final line only, whatever the earlier lines were; on an empty
file it fails instead of returning a value. -/
theorem read_last_mev_log_spec {J : Type} (loads : String → J)
    (pre : List String) (lastLine : String) :
    read_last_mev_log loads (pre ++ [lastLine]) = .ok (loads lastLine) ∧
    read_last_mev_log loads ([] : List String) =
      .error .unboundLastLine := by
  constructor
  · unfold read_last_mev_log
    rw [foldl_overwrite_last]
  · rfl
